import Mathlib

/-!
Shallow embedding of the blind-voting and vote-tallying subsystem of
`src/app.py` (a Streamlit app backed by MongoDB), together with theorems
settling the specification claims about it.

Modelling conventions:
* The MongoDB `votes` collection is modelled as a `List VoteRecord` in
  insertion ($natural) order.  `get_db` returning `None` (storage
  unreachable) is modelled by the database state being `none`; a connected
  database is `some votes`.
* Thread and post ids come from the forum corpus as JSON integers, so they
  are modelled as `Nat`; Python's f-string interpolation `f"{t}_{p}"` is
  `Nat.repr t ++ "_" ++ Nat.repr p`.
* Python dict keys in `st.session_state` may be ints (thread-scope keys)
  or strings (thread+post keys); `PyKey` mirrors that, since an int key
  and a string key never collide in a Python dict.
* `datetime.utcnow()` is an ambient clock, passed in as a `Nat` argument.
* A Python function that can raise on the modelled path returns `Option`
  (`none` = exception); a plain return of a value is `some`.
-/

namespace App

/-- VoteRecord mirrors the documents inserted by `save_vote` in
`src/app.py`: `{thread_id, post_id, model, user_ip, timestamp}`. -/
structure VoteRecord where
  thread_id : Nat
  post_id : Nat
  model : String
  user_ip : String
  timestamp : Nat
deriving DecidableEq, Repr

/-- Database state: `none` when the Mongo client could not be obtained
(`get_db` returns `None`), otherwise the list of stored vote documents. -/
abbrev DB := Option (List VoteRecord)

/-- Filter used by `remove_vote`'s `delete_one` call: a record matches when
its thread id, post id and user ip all equal the given ones. -/
def matchesVoter (r : VoteRecord) (thread_id post_id : Nat) (user_ip : String) : Bool :=
  r.thread_id == thread_id && r.post_id == post_id && r.user_ip == user_ip

/-- Filter used by `get_vote_stats`'s `$match` stage: a record matches when
its thread id and post id equal the given ones. -/
def matchesPost (r : VoteRecord) (thread_id post_id : Nat) : Bool :=
  r.thread_id == thread_id && r.post_id == post_id

/-- Mongo's `delete_one`: remove the first document (in natural order)
satisfying the filter; if none matches, the collection is unchanged. -/
def delete_one (votes : List VoteRecord) (thread_id post_id : Nat) (user_ip : String) :
    List VoteRecord :=
  match votes with
  | [] => []
  | r :: rs =>
    if matchesVoter r thread_id post_id user_ip then rs
    else r :: delete_one rs thread_id post_id user_ip

/-- Embedding of `save_vote` (src/app.py lines 54-64): if the database is
available, `insert_one` appends the vote document; otherwise the function
silently does nothing.  The returned value is the new database state. -/
def save_vote (db : DB) (thread_id post_id : Nat) (selected_model user_ip : String)
    (now : Nat) : DB :=
  match db with
  | some votes =>
      some (votes ++ [⟨thread_id, post_id, selected_model, user_ip, now⟩])
  | none => none

/-- Embedding of `remove_vote` (src/app.py lines 81-88): `delete_one` with
the `{thread_id, post_id, user_ip}` filter when the database is available,
silently nothing otherwise. -/
def remove_vote (db : DB) (thread_id post_id : Nat) (user_ip : String) : DB :=
  match db with
  | some votes => some (delete_one votes thread_id post_id user_ip)
  | none => none

/-- Embedding of `get_vote_stats` (src/app.py lines 66-79): the aggregation
pipeline `$match {thread_id, post_id}` then `$group by $model with count`,
returning the per-model counts and their sum; `({}, 0)` when the database
is unavailable.  The group stage is modelled by mapping each distinct model
of the matching records to its multiplicity. -/
def get_vote_stats (db : DB) (thread_id post_id : Nat) : List (String × Nat) × Nat :=
  match db with
  | some votes =>
    let ms := (votes.filter (fun r => matchesPost r thread_id post_id)).map VoteRecord.model
    let stats := ms.dedup.map (fun m => (m, ms.count m))
    (stats, (stats.map (fun e => e.2)).sum)
  | none => ([], 0)

/-- Embedding of `get_all_vote_stats` (src/app.py lines 142-154): the same
grouping with no thread/post filter, `{}` when the database is
unavailable. -/
def get_all_vote_stats (db : DB) : List (String × Nat) :=
  match db with
  | some votes =>
    let ms := votes.map VoteRecord.model
    ms.dedup.map (fun m => (m, ms.count m))
  | none => []

/-- Reading a count out of the stats dictionary, with 0 for an absent
model (an absent key in the returned Python dict means no votes). -/
def statsCount (stats : List (String × Nat)) (m : String) : Nat :=
  (stats.lookup m).getD 0

/-- Lookup in an association list built by tagging each key with a value
computed from it. -/
theorem lookup_map_self {α β : Type} [DecidableEq α] (ks : List α) (f : α → β) (k : α) :
    ((ks.map (fun x => (x, f x))).lookup k) = if k ∈ ks then some (f k) else none := by
  induction ks with
  | nil => simp
  | cons a as ih =>
    by_cases h : k = a
    · subst h; simp [List.lookup]
    · simp [List.lookup, h, ih, beq_false_of_ne h]

/-- The count reported by `get_vote_stats` for a model equals the number of
matching records with that model. -/
theorem statsCount_get_vote_stats (votes : List VoteRecord) (t p : Nat) (m : String) :
    statsCount (get_vote_stats (some votes) t p).1 m =
      ((votes.filter (fun r => matchesPost r t p)).map VoteRecord.model).count m := by
  simp only [get_vote_stats, statsCount]
  rw [lookup_map_self]
  by_cases h : m ∈ (votes.filter (fun r => matchesPost r t p)).map VoteRecord.model
  · simp [h, List.mem_dedup]
  · simp [h, List.mem_dedup, List.count_eq_zero.mpr h]

/-- Summing the multiplicity of each distinct element recovers the length
of the list. -/
theorem sum_dedup_count {α : Type} [DecidableEq α] (ms : List α) :
    (ms.dedup.map (fun m => ms.count m)).sum = ms.length := by
  rw [← List.sum_toFinset _ ms.nodup_dedup]
  have h : ms.dedup.toFinset = ms.toFinset := by
    ext a
    simp [List.mem_dedup]
  rw [h]
  exact List.sum_toFinset_count_eq_length ms

/-- The total reported by `get_vote_stats` equals the number of matching
records. -/
theorem total_get_vote_stats (votes : List VoteRecord) (t p : Nat) :
    (get_vote_stats (some votes) t p).2 =
      (votes.filter (fun r => matchesPost r t p)).length := by
  simp only [get_vote_stats]
  rw [← List.length_map (votes.filter (fun r => matchesPost r t p)) VoteRecord.model]
  generalize (votes.filter (fun r => matchesPost r t p)).map VoteRecord.model = ms
  rw [List.map_map]
  have h : ((fun e : String × Nat => e.2) ∘ fun m => (m, ms.count m)) =
      fun m => ms.count m := rfl
  rw [h]
  exact sum_dedup_count ms

/-- Python dict key in `st.session_state.randomized_models`: the code uses
the bare thread id (an int) for the thread-title scope and the f-string
`f"{thread_id}_{post_id}"` (a str) for the per-post scope; int and str keys
never collide in a Python dict. -/
inductive PyKey where
  | int : Nat → PyKey
  | str : String → PyKey
deriving DecidableEq, Repr

/-- Key building in `get_randomized_models` / `get_model_display_name` /
`get_actual_model_name`: `f"{thread_id}_{post_id}" if post_id is not None
else thread_id`. -/
def scope_key (thread_id : Nat) (post_id : Option Nat) : PyKey :=
  match post_id with
  | some p => .str (Nat.repr thread_id ++ "_" ++ Nat.repr p)
  | none => .int thread_id

/-- State of `st.session_state.randomized_models`, a dict from scope key to
the shuffled list of model names; modelled as an association list with
distinct keys. -/
abbrev RMState := List (PyKey × List String)

/-- Embedding of `get_randomized_models` (src/app.py lines 106-117).  The
call `random.sample(models, len(models))` draws a random permutation of
`models`; the randomness is made explicit as the `sample` argument (a
theorem about it will hypothesise that `sample l` is a permutation of
`l`).  Returns the list for the scope together with the updated cache. -/
def get_randomized_models (sample : List String → List String) (rm : RMState)
    (models : List String) (thread_id : Nat) (post_id : Option Nat) :
    List String × RMState :=
  let key := scope_key thread_id post_id
  match rm.lookup key with
  | some v => (v, rm)
  | none =>
    let v := sample models
    (v, (key, v) :: rm)

/-- Embedding of `get_model_display_name` (src/app.py lines 119-127).
Returns `none` where Python raises: a `KeyError` when the scope key is not
in `randomized_models`, or a `ValueError` from `.index` when the model is
not in the stored list.  Otherwise the display name is
`f"Model {chr(64 + position)}"` with `position` the 1-based index, plus
the real name in parentheses when `show_actual` is set. -/
def get_model_display_name (rm : RMState) (model : String) (thread_id : Nat)
    (post_id : Option Nat) (show_actual : Bool) : Option String :=
  match rm.lookup (scope_key thread_id post_id) with
  | none => none
  | some models =>
    if model ∈ models then
      let position := models.indexOf model + 1
      let display_name := "Model " ++ String.singleton (Char.ofNat (64 + position))
      if show_actual then some (display_name ++ " (" ++ model ++ ")")
      else some display_name
    else none

/-- Python's `str.split()` with no separator: split on runs of whitespace
and drop empty pieces.  The display names handled by the code contain only
single spaces, so splitting on the space character suffices. -/
def pySplit (s : String) : List String :=
  ((s.data.splitOn ' ').filter (fun l => l ≠ [])).map (fun l => String.mk l)

/-- Last element of `split()`, i.e. Python's `s.split()[-1]`; `none` models
the `IndexError` on a string with no words. -/
def lastWord (s : String) : Option String :=
  (pySplit s).getLast?

/-- Embedding of `get_actual_model_name` (src/app.py lines 129-140).
Computes `position = ord(display_name.split()[-1]) - 64`; `none` models the
`IndexError`/`TypeError` when the display name has no last word or the last
word is not a single character.  When the scope key is present and the
position is within range the model at that position is returned, otherwise
the function falls back to returning the display name itself. -/
def get_actual_model_name (rm : RMState) (display_name : String) (thread_id : Nat)
    (post_id : Option Nat) : Option String :=
  match lastWord display_name with
  | none => none
  | some w =>
    if hw : w.length = 1 then
      let position := (w.get 0).toNat - 64
      match rm.lookup (scope_key thread_id post_id) with
      | some models =>
        if hp : 0 < position ∧ position ≤ models.length then
          some (models.get ⟨position - 1, by omega⟩)
        else some display_name
      | none => some display_name
    else none

/-- Key of the `voted_posts` session set, the f-string
`f"{thread['id']}_{post['id']}"` from src/app.py lines 302 and 339. -/
def postKey (thread_id post_id : Nat) : String :=
  Nat.repr thread_id ++ "_" ++ Nat.repr post_id

/-- Key of the `user_votes` session dict, the f-string
`f"{thread_id}_{post_id}_{model}"` from src/app.py lines 209-219. -/
def voteKey (thread_id post_id : Nat) (model : String) : String :=
  Nat.repr thread_id ++ "_" ++ Nat.repr post_id ++ "_" ++ model

/-- Decimal digit characters never equal the underscore. -/
theorem digitChar_ne_underscore (d : Nat) : Nat.digitChar d ≠ '_' := by
  by_cases h : d < 16
  · interval_cases d <;> decide
  · have hne : ∀ k, k < 16 → ¬d = k := by
      intro k hk
      omega
    unfold Nat.digitChar
    rw [if_neg (hne 0 (by norm_num)), if_neg (hne 1 (by norm_num)),
      if_neg (hne 2 (by norm_num)), if_neg (hne 3 (by norm_num)),
      if_neg (hne 4 (by norm_num)), if_neg (hne 5 (by norm_num)),
      if_neg (hne 6 (by norm_num)), if_neg (hne 7 (by norm_num)),
      if_neg (hne 8 (by norm_num)), if_neg (hne 9 (by norm_num)),
      if_neg (hne 10 (by norm_num)), if_neg (hne 11 (by norm_num)),
      if_neg (hne 12 (by norm_num)), if_neg (hne 13 (by norm_num)),
      if_neg (hne 14 (by norm_num)), if_neg (hne 15 (by norm_num))]
    decide

/-- The accumulator argument of `Nat.toDigitsCore` is simply appended to
the digits produced from the number. -/
theorem toDigitsCore_acc (f : Nat) :
    ∀ (n : Nat) (l : List Char),
      Nat.toDigitsCore 10 f n l = Nat.toDigitsCore 10 f n [] ++ l := by
  induction f with
  | zero => intro n l; simp [Nat.toDigitsCore]
  | succ f ih =>
    intro n l
    simp only [Nat.toDigitsCore]
    by_cases h : n / 10 = 0
    · simp [h]
    · simp only [h, if_false]
      rw [ih (n / 10) (Nat.digitChar (n % 10) :: l), ih (n / 10) [Nat.digitChar (n % 10)]]
      simp

/-- Underscores never appear among the decimal digits produced by
`Nat.toDigitsCore`, beyond those already in the accumulator. -/
theorem toDigitsCore_no_underscore (f : Nat) :
    ∀ (n : Nat) (l : List Char), '_' ∉ l → '_' ∉ Nat.toDigitsCore 10 f n l := by
  induction f with
  | zero => intro n l hl; simpa [Nat.toDigitsCore] using hl
  | succ f ih =>
    intro n l hl
    simp only [Nat.toDigitsCore]
    by_cases h : n / 10 = 0
    · simp only [h, if_true]
      intro hmem
      rcases List.mem_cons.mp hmem with h1 | h1
      · exact digitChar_ne_underscore (n % 10) h1.symm
      · exact hl h1
    · simp only [h, if_false]
      apply ih
      intro hmem
      rcases List.mem_cons.mp hmem with h1 | h1
      · exact digitChar_ne_underscore (n % 10) h1.symm
      · exact hl h1

/-- Underscores never appear in the decimal representation of a natural
number. -/
theorem repr_no_underscore (n : Nat) : '_' ∉ (Nat.repr n).data := by
  show '_' ∉ (Nat.toDigits 10 n).asString.data
  have h : (Nat.toDigits 10 n).asString.data = Nat.toDigits 10 n := rfl
  rw [h]
  exact toDigitsCore_no_underscore (n + 1) n [] (by simp)

/-- Value of a list of decimal digit characters, most significant first. -/
def decodeDigits : List Char → Nat
  | [] => 0
  | c :: cs => (c.toNat - 48) * 10 ^ cs.length + decodeDigits cs

/-- Appending a final digit multiplies the decoded value by ten and adds
the digit. -/
theorem decodeDigits_append (xs : List Char) (c : Char) :
    decodeDigits (xs ++ [c]) = 10 * decodeDigits xs + (c.toNat - 48) := by
  induction xs with
  | nil => simp [decodeDigits]
  | cons x xs ih =>
    show decodeDigits (x :: (xs ++ [c])) = 10 * decodeDigits (x :: xs) + (c.toNat - 48)
    simp only [decodeDigits, ih, List.length_append, List.length_cons, List.length_nil]
    ring

/-- Decimal digit characters decode back to the digit they encode. -/
theorem digitChar_decode (r : Nat) (h : r < 10) : (Nat.digitChar r).toNat - 48 = r := by
  interval_cases r <;> decide

/-- Decoding the digits produced by `Nat.toDigitsCore` recovers the
number, for sufficient fuel. -/
theorem decode_toDigitsCore :
    ∀ (f n : Nat), n < f → decodeDigits (Nat.toDigitsCore 10 f n []) = n := by
  intro f
  induction f with
  | zero => intro n hn; omega
  | succ f ih =>
    intro n hn
    simp only [Nat.toDigitsCore]
    by_cases h : n / 10 = 0
    · simp only [h, if_true]
      simp only [decodeDigits, List.length_nil, pow_zero, mul_one, Nat.add_zero]
      rw [digitChar_decode (n % 10) (Nat.mod_lt n (by omega))]
      omega
    · simp only [h, if_false]
      rw [toDigitsCore_acc, decodeDigits_append]
      have hlt : n / 10 < f := by
        have h10 : 10 ≤ n := by
          by_contra hcon
          exact h (Nat.div_eq_of_lt (by omega))
        have := Nat.div_lt_self (by omega : 0 < n) (by omega : 1 < 10)
        omega
      rw [ih (n / 10) hlt, digitChar_decode (n % 10) (Nat.mod_lt n (by omega))]
      omega

/-- Decimal representation is injective. -/
theorem repr_injective : Function.Injective Nat.repr := by
  intro a b hab
  have hdata : (Nat.repr a).data = (Nat.repr b).data := by rw [hab]
  have ha : (Nat.repr a).data = Nat.toDigitsCore 10 (a + 1) a [] := rfl
  have hb : (Nat.repr b).data = Nat.toDigitsCore 10 (b + 1) b [] := rfl
  have h := congrArg decodeDigits (ha ▸ hb ▸ hdata)
  rwa [decode_toDigitsCore (a + 1) a (by omega),
    decode_toDigitsCore (b + 1) b (by omega)] at h

/-- Splitting a character-list equation at an underscore separator that
occurs in neither left part. -/
theorem append_underscore_inj :
    ∀ (a₁ : List Char) {b₁ : List Char} (a₂ : List Char) {b₂ : List Char},
      '_' ∉ a₁ → '_' ∉ a₂ → a₁ ++ '_' :: b₁ = a₂ ++ '_' :: b₂ →
      a₁ = a₂ ∧ b₁ = b₂ := by
  intro a₁
  induction a₁ with
  | nil =>
    intro b₁ a₂ b₂ _ h₂ h
    cases a₂ with
    | nil => simpa using h
    | cons x xs =>
      exfalso
      have hx : '_' = x := by simpa using congrArg (fun l => l.head?) h
      exact h₂ (hx ▸ List.mem_cons_self x xs)
  | cons y ys ih =>
    intro b₁ a₂ b₂ h₁ h₂ h
    cases a₂ with
    | nil =>
      exfalso
      have hy : y = '_' := by simpa using congrArg (fun l => l.head?) h
      exact h₁ (hy ▸ List.mem_cons_self y ys)
    | cons x xs =>
      simp only [List.cons_append, List.cons.injEq] at h
      obtain ⟨hyx, hrest⟩ := h
      have h₁' : '_' ∉ ys := fun hm => h₁ (List.mem_cons_of_mem y hm)
      have h₂' : '_' ∉ xs := fun hm => h₂ (List.mem_cons_of_mem x hm)
      obtain ⟨he, hb⟩ := ih xs h₁' h₂' hrest
      exact ⟨by rw [hyx, he], hb⟩

/-- The `voted_posts` key encodes the thread and post ids injectively. -/
theorem postKey_inj {t₁ p₁ t₂ p₂ : Nat} (h : postKey t₁ p₁ = postKey t₂ p₂) :
    t₁ = t₂ ∧ p₁ = p₂ := by
  have hdata : (Nat.repr t₁).data ++ '_' :: (Nat.repr p₁).data =
      (Nat.repr t₂).data ++ '_' :: (Nat.repr p₂).data := by
    have := congrArg String.data h
    simpa [postKey, String.data_append] using this
  obtain ⟨h₁, h₂⟩ := append_underscore_inj _ _ (repr_no_underscore t₁)
    (repr_no_underscore t₂) hdata
  constructor
  · exact repr_injective (by apply String.ext; exact h₁)
  · exact repr_injective (by apply String.ext; exact h₂)

/-- Per-viewer session state as held in `st.session_state`, together with
the database connection and a clock supplying `datetime.utcnow()` values.
`voted_posts` is a Python set of post keys; `user_votes` is a dict whose
values are always `True`, so it is modelled by its key set. -/
structure Session where
  voted_posts : List String
  user_votes : List String
  db : DB
  clock : Nat
deriving DecidableEq, Repr

/-- Fresh session: `initialize_session_state` (src/app.py lines 202-206)
starts with an empty `voted_posts` set and an empty `user_votes` dict; the
pre-existing database contents are a parameter. -/
def initSession (db : DB) : Session :=
  { voted_posts := [], user_votes := [], db := db, clock := 0 }

/-- Embedding of `get_user_vote_from_session` (src/app.py lines 208-210):
`st.session_state.user_votes.get(key, False)`. -/
def get_user_vote_from_session (s : Session) (thread_id post_id : Nat)
    (model : String) : Bool :=
  voteKey thread_id post_id model ∈ s.user_votes

/-- Viewer actions that mutate session or vote-store state: pressing the
vote button or the remove-vote button for a (thread, post, model) column
(src/app.py lines 328-342). -/
inductive Event where
  | vote (thread_id post_id : Nat) (model user_ip : String)
  | removeVote (thread_id post_id : Nat) (model user_ip : String)
deriving DecidableEq, Repr

/-- One UI action.  The vote handler (src/app.py lines 335-342) runs
`save_vote`, `save_user_vote_to_session` and adds the post key to
`voted_posts`; the remove handler (lines 329-333) runs `remove_vote` and
`remove_user_vote_from_session` and touches nothing else. -/
def step (s : Session) : Event → Session
  | .vote t p m ip =>
    { voted_posts := s.voted_posts.insert (postKey t p)
      user_votes := s.user_votes.insert (voteKey t p m)
      db := save_vote s.db t p m ip s.clock
      clock := s.clock + 1 }
  | .removeVote t p m ip =>
    { voted_posts := s.voted_posts
      user_votes := s.user_votes.erase (voteKey t p m)
      db := remove_vote s.db t p ip
      clock := s.clock + 1 }

/-- Running a session through a list of viewer actions. -/
def run (s : Session) (es : List Event) : Session :=
  es.foldl step s

/-- Gate for the gray "Model: name" reveal under each translation column
(src/app.py lines 345-347): shown exactly when the post key is in
`voted_posts`. -/
def revealModelNames (s : Session) (thread_id post_id : Nat) : Bool :=
  postKey thread_id post_id ∈ s.voted_posts

/-- Rendering of the per-post vote distribution under the original column
(src/app.py lines 301-310): only when the post key is in `voted_posts` and
the total is positive does the page list, per model, its count and the
percentage `count / total * 100`. -/
def render_post_distribution (s : Session) (thread_id post_id : Nat) :
    Option (List (String × Nat × ℚ)) :=
  if postKey thread_id post_id ∈ s.voted_posts then
    let res := get_vote_stats s.db thread_id post_id
    if 0 < res.2 then
      some (res.1.map (fun e => (e.1, e.2, (e.2 : ℚ) / (res.2 : ℚ) * 100)))
    else none
  else none

/-- Result of the statistics page body: either the "No votes have been
cast yet." message or, per model, its vote count and percentage. -/
inductive StatsView where
  | noData : StatsView
  | chart : List (String × Nat × ℚ) → StatsView
deriving DecidableEq, Repr

/-- Embedding of `show_statistics` (src/app.py lines 167-200): the total is
the sum of all per-model counts; when it is positive the detailed list
computes `percentage = votes / total_votes * 100` per model, otherwise the
page shows the no-data message. -/
def show_statistics (db : DB) : Nat × StatsView :=
  let vote_stats := get_all_vote_stats db
  let total_votes := (vote_stats.map (fun e => e.2)).sum
  if 0 < total_votes then
    (total_votes,
      .chart (vote_stats.map (fun e => (e.1, e.2, (e.2 : ℚ) / (total_votes : ℚ) * 100))))
  else (total_votes, .noData)

/-! Helper lemmas about `delete_one`. -/

/-- Deleting with a filter nothing satisfies leaves the list unchanged. -/
theorem delete_one_of_no_match {l : List VoteRecord} {t p : Nat} {ip : String}
    (h : ∀ r ∈ l, matchesVoter r t p ip = false) : delete_one l t p ip = l := by
  induction l with
  | nil => rfl
  | cons r rs ih =>
    have hr : matchesVoter r t p ip = false := h r (List.mem_cons_self r rs)
    simp only [delete_one, hr, Bool.false_eq_true, if_false]
    rw [ih (fun x hx => h x (List.mem_cons_of_mem r hx))]

/-- Deleting from a list whose only matching record is a final appended one
removes exactly that record. -/
theorem delete_one_append_last {l : List VoteRecord} {t p : Nat} {ip : String}
    {rec : VoteRecord} (h : ∀ r ∈ l, matchesVoter r t p ip = false)
    (hrec : matchesVoter rec t p ip = true) : delete_one (l ++ [rec]) t p ip = l := by
  induction l with
  | nil => simp [delete_one, hrec]
  | cons r rs ih =>
    have hr : matchesVoter r t p ip = false := h r (List.mem_cons_self r rs)
    simp only [List.cons_append, delete_one, hr, Bool.false_eq_true, if_false]
    exact congrArg (fun x => r :: x) (ih (fun x hx => h x (List.mem_cons_of_mem r hx)))

/-- Mongo's `delete_one` removes exactly one document when one matches and
none otherwise. -/
theorem delete_one_length (l : List VoteRecord) (t p : Nat) (ip : String) :
    (delete_one l t p ip).length =
      if l.any (fun r => matchesVoter r t p ip) then l.length - 1 else l.length := by
  induction l with
  | nil => simp [delete_one]
  | cons r rs ih =>
    by_cases h : matchesVoter r t p ip = true
    · simp [delete_one, h]
    · rw [Bool.not_eq_true] at h
      simp only [delete_one, h, Bool.false_eq_true, if_false, List.length_cons,
        List.any_cons, Bool.false_or, ih]
      by_cases ha : rs.any (fun r => matchesVoter r t p ip) = true
      · obtain ⟨x, hx, _⟩ := List.any_eq_true.mp ha
        have hpos : 0 < rs.length := List.length_pos.mpr (List.ne_nil_of_mem hx)
        simp only [ha, if_true]
        omega
      · rw [Bool.not_eq_true] at ha
        simp [ha]

/-- C1, corrected: `remove_vote` uses Mongo's `delete_one`, so it deletes
at most one record matching the (thread, post, voter) filter — the first in
natural order — not all of them.  Deleting zero records is not an error (the
state is unchanged), and after a single `cast(t,p,s,v)` followed by
`revoke(t,p,v)`, with no other stored votes by that voter on that item,
`stats_for(t,p)` returns counts as if the cast never happened. -/
theorem revoke_deletes_at_most_one (l : List VoteRecord) (t p : Nat)
    (m ip : String) (now : Nat) :
    ((delete_one l t p ip).length =
      if l.any (fun r => matchesVoter r t p ip) then l.length - 1 else l.length) ∧
    ((∀ r ∈ l, matchesVoter r t p ip = false) → remove_vote (some l) t p ip = some l) ∧
    ((∀ r ∈ l, matchesVoter r t p ip = false) →
      get_vote_stats (remove_vote (save_vote (some l) t p m ip now) t p ip) t p =
        get_vote_stats (some l) t p) := by
  refine ⟨delete_one_length l t p ip, ?_, ?_⟩
  · intro h
    simp only [remove_vote, delete_one_of_no_match h]
  · intro h
    have hrec : matchesVoter ⟨t, p, m, ip, now⟩ t p ip = true := by
      simp [matchesVoter]
    simp only [save_vote, remove_vote, delete_one_append_last h hrec]

/-- Witness for the corrected C1 at a concrete store: one unrelated record,
then cast and revoke on (1,2) by voter "z". -/
theorem revoke_deletes_at_most_one_witness :
    (∀ r ∈ [(⟨5, 6, "x", "y", 0⟩ : VoteRecord)], matchesVoter r 1 2 "z" = false) ∧
    get_vote_stats
        (remove_vote (save_vote (some [(⟨5, 6, "x", "y", 0⟩ : VoteRecord)]) 1 2 "gpt-4o" "z" 3)
          1 2 "z") 1 2 =
      get_vote_stats (some [(⟨5, 6, "x", "y", 0⟩ : VoteRecord)]) 1 2 :=
  ⟨by decide, (revoke_deletes_at_most_one [⟨5, 6, "x", "y", 0⟩] 1 2 "gpt-4o" "z" 3).2.2
    (by decide)⟩

/-- Counterexample to C1 as stated: with two stored records matching the
(thread, post, voter) filter, `remove_vote` deletes only the first; a
matching record survives, so it does not delete every matching record. -/
theorem revoke_counterexample :
    remove_vote
        (some [(⟨1, 2, "gpt-4o", "203.0.113.5", 0⟩ : VoteRecord),
          (⟨1, 2, "claude", "203.0.113.5", 1⟩ : VoteRecord)]) 1 2 "203.0.113.5" =
      some [(⟨1, 2, "claude", "203.0.113.5", 1⟩ : VoteRecord)] ∧
    matchesVoter (⟨1, 2, "claude", "203.0.113.5", 1⟩ : VoteRecord) 1 2 "203.0.113.5" = true := by
  decide

/-- C2, confirmed: calling `get_randomized_models` a second time with the
same scope key (same thread id and optional post id) in the same session
returns the cached list and leaves the cache unchanged — it never
reshuffles. -/
theorem assign_idempotent (sample : List String → List String) (rm : RMState)
    (models : List String) (_hne : models ≠ []) (thread_id : Nat) (post_id : Option Nat) :
    get_randomized_models sample
        (get_randomized_models sample rm models thread_id post_id).2 models thread_id post_id =
      get_randomized_models sample rm models thread_id post_id := by
  unfold get_randomized_models
  cases h : rm.lookup (scope_key thread_id post_id) with
  | some v => simp [h]
  | none => simp [h, List.lookup]

/-- Witness for C2 with one model and the thread-level scope of thread 42. -/
theorem assign_idempotent_witness :
    ((["gpt-4o"] : List String) ≠ []) ∧
    get_randomized_models id (get_randomized_models id [] ["gpt-4o"] 42 none).2 ["gpt-4o"] 42 none =
      get_randomized_models id [] ["gpt-4o"] 42 none :=
  ⟨by decide, assign_idempotent id [] ["gpt-4o"] (by decide) 42 none⟩

/-- C5, corrected: when the vote storage is unreachable (`get_db` returns
`None`), no operation raises any error — `save_vote` and `remove_vote`
silently do nothing and the stats queries silently return empty results;
no `StorageUnavailableError` exists anywhere in the code. -/
theorem storage_unavailable_silently_degrades (t p now : Nat) (m ip : String) :
    save_vote none t p m ip now = none ∧
    remove_vote none t p ip = none ∧
    get_vote_stats none t p = ([], 0) ∧
    get_all_vote_stats none = [] :=
  ⟨rfl, rfl, rfl, rfl⟩

/-- Counterexample to C5 as stated: at a concrete unreachable-storage
state, every operation returns an ordinary value — a no-op or empty
statistics — instead of failing. -/
theorem storage_unavailable_counterexample :
    save_vote none 1 2 "gpt-4o" "203.0.113.5" 0 = none ∧
    remove_vote none 1 2 "203.0.113.5" = none ∧
    get_vote_stats none 1 2 = ([], 0) ∧
    get_all_vote_stats none = [] :=
  ⟨rfl, rfl, rfl, rfl⟩

/-- C6, confirmed: `get_vote_stats (some l) t p` reports, for every model,
exactly the number of stored records matching (t, p) with that model, and
as total the number of matching records; with zero matching votes it
returns `([], 0)`; `save_vote` appends unconditionally (even if the same
voter already voted), and after it the count for the cast model and the
total each grow by exactly one. -/
theorem stats_for_correct (l : List VoteRecord) (t p : Nat) (s ip : String) (now : Nat) :
    (∀ m, statsCount (get_vote_stats (some l) t p).1 m =
      ((l.filter (fun r => matchesPost r t p)).map VoteRecord.model).count m) ∧
    ((get_vote_stats (some l) t p).2 = (l.filter (fun r => matchesPost r t p)).length) ∧
    ((∀ r ∈ l, matchesPost r t p = false) → get_vote_stats (some l) t p = ([], 0)) ∧
    save_vote (some l) t p s ip now = some (l ++ [⟨t, p, s, ip, now⟩]) ∧
    statsCount (get_vote_stats (save_vote (some l) t p s ip now) t p).1 s =
      statsCount (get_vote_stats (some l) t p).1 s + 1 ∧
    (get_vote_stats (save_vote (some l) t p s ip now) t p).2 =
      (get_vote_stats (some l) t p).2 + 1 := by
  have hrec : matchesPost (⟨t, p, s, ip, now⟩ : VoteRecord) t p = true := by
    simp [matchesPost]
  have hfil : (l ++ [(⟨t, p, s, ip, now⟩ : VoteRecord)]).filter
      (fun r => matchesPost r t p) =
      l.filter (fun r => matchesPost r t p) ++ [⟨t, p, s, ip, now⟩] := by
    rw [List.filter_append]
    simp [hrec]
  refine ⟨statsCount_get_vote_stats l t p, total_get_vote_stats l t p, ?_, rfl, ?_, ?_⟩
  · intro h
    have hnil : l.filter (fun r => matchesPost r t p) = [] := by
      apply List.filter_eq_nil_iff.mpr
      intro a ha
      simp [h a ha]
    simp [get_vote_stats, hnil]
  · show statsCount (get_vote_stats (some (l ++ [⟨t, p, s, ip, now⟩])) t p).1 s = _
    rw [statsCount_get_vote_stats, statsCount_get_vote_stats, hfil]
    simp
  · show (get_vote_stats (some (l ++ [⟨t, p, s, ip, now⟩])) t p).2 = _
    rw [total_get_vote_stats, total_get_vote_stats, hfil]
    simp

/-- Witness for C6 on the empty store: casting on (42, 7) yields count 1
for the cast model and total 1. -/
theorem stats_for_correct_witness :
    (∀ r ∈ ([] : List VoteRecord), matchesPost r 42 7 = false) ∧
    get_vote_stats (some []) 42 7 = ([], 0) ∧
    statsCount (get_vote_stats (save_vote (some []) 42 7 "gpt-4o" "203.0.113.5" 0) 42 7).1
        "gpt-4o" =
      statsCount (get_vote_stats (some ([] : List VoteRecord)) 42 7).1 "gpt-4o" + 1 :=
  ⟨by simp, (stats_for_correct [] 42 7 "gpt-4o" "203.0.113.5" 0).2.2.1 (by simp),
    (stats_for_correct [] 42 7 "gpt-4o" "203.0.113.5" 0).2.2.2.2.1⟩

/-! Helper facts about the "Model <Letter>" display names for the alphabetic
positions 1..26 used by the mapper. -/

/-- Splitting a display name yields the word "Model" and the letter. -/
theorem pySplit_display : ∀ n < 26,
    pySplit ("Model " ++ String.singleton (Char.ofNat (65 + n))) =
      ["Model", String.singleton (Char.ofNat (65 + n))] := by
  decide

/-- The letter of a display name is one character and decodes back to its
alphabetic position. -/
theorem letter_facts : ∀ n < 26,
    (String.singleton (Char.ofNat (65 + n))).length = 1 ∧
    ((String.singleton (Char.ofNat (65 + n))).get 0).toNat = 65 + n := by
  decide

/-- Distinct alphabetic positions in 1..26 get distinct letter characters. -/
theorem letter_inj : ∀ i < 26, ∀ j < 26,
    Char.ofNat (65 + i) = Char.ofNat (65 + j) → i = j := by
  decide

/-- Appending distinct single-character tails to "Model " gives distinct
display names. -/
theorem display_name_letter_inj {c₁ c₂ : Char}
    (h : "Model " ++ String.singleton c₁ = "Model " ++ String.singleton c₂) : c₁ = c₂ := by
  have h1 : ("Model " ++ String.singleton c₁).data = "Model ".data ++ [c₁] := rfl
  have h2 : ("Model " ++ String.singleton c₂).data = "Model ".data ++ [c₂] := rfl
  have hd : "Model ".data ++ [c₁] = "Model ".data ++ [c₂] := by
    rw [← h1, ← h2, h]
  have := List.append_cancel_left hd
  simpa using this

set_option maxHeartbeats 1000000 in
/-- C3, confirmed: for a scope with an assigned mapping of at most 26
sources, resolving the display name of any source of the mapping back
through `get_actual_model_name` returns that source. -/
theorem resolve_roundtrip (rm : RMState) (thread_id : Nat) (post_id : Option Nat)
    (models : List String) (h : rm.lookup (scope_key thread_id post_id) = some models)
    (m : String) (hm : m ∈ models) (hlen : models.length ≤ 26) :
    (get_model_display_name rm m thread_id post_id false).bind
        (fun dn => get_actual_model_name rm dn thread_id post_id) = some m := by
  have hidx : models.indexOf m < models.length := List.indexOf_lt_length.mpr hm
  have hlt : models.indexOf m < 26 := by omega
  have hdisp : get_model_display_name rm m thread_id post_id false =
      some ("Model " ++ String.singleton (Char.ofNat (65 + models.indexOf m))) := by
    unfold get_model_display_name
    rw [h]
    simp only [hm, if_true, if_false, Bool.false_eq_true]
    have he : 64 + (models.indexOf m + 1) = 65 + models.indexOf m := by omega
    rw [he]
  rw [hdisp]
  show get_actual_model_name rm
      ("Model " ++ String.singleton (Char.ofNat (65 + models.indexOf m)))
      thread_id post_id = some m
  have hlw : lastWord ("Model " ++ String.singleton (Char.ofNat (65 + models.indexOf m))) =
      some (String.singleton (Char.ofNat (65 + models.indexOf m))) := by
    unfold lastWord
    rw [pySplit_display (models.indexOf m) hlt]
    rfl
  obtain ⟨hlen1, hval⟩ := letter_facts (models.indexOf m) hlt
  have hgetl : ∀ (i : Nat) (hi : i < models.length), i = models.indexOf m →
      models.get ⟨i, hi⟩ = m := by
    intro i hi hie
    subst hie
    exact List.indexOf_get hi
  simp only [get_actual_model_name, hlw, h]
  rw [dif_pos hlen1]
  simp only [hval]
  rw [dif_pos (show 0 < 65 + models.indexOf m - 64 ∧
    65 + models.indexOf m - 64 ≤ models.length by omega)]
  exact congrArg some (hgetl _ _ (by omega))

/-- Witness for C3: the spec's own example scope, four sources, resolving
"gemini" round-trips. -/
theorem resolve_roundtrip_witness :
    (([(PyKey.int 42, ["gpt-4o", "claude", "gemini", "deepseek"])] : RMState).lookup
        (scope_key 42 none) = some ["gpt-4o", "claude", "gemini", "deepseek"]) ∧
    "gemini" ∈ ["gpt-4o", "claude", "gemini", "deepseek"] ∧
    (get_model_display_name [(PyKey.int 42, ["gpt-4o", "claude", "gemini", "deepseek"])]
          "gemini" 42 none false).bind
        (fun dn => get_actual_model_name
          [(PyKey.int 42, ["gpt-4o", "claude", "gemini", "deepseek"])] dn 42 none) =
      some "gemini" :=
  ⟨by decide, by decide,
    resolve_roundtrip [(PyKey.int 42, ["gpt-4o", "claude", "gemini", "deepseek"])] 42 none
      ["gpt-4o", "claude", "gemini", "deepseek"] (by decide) "gemini" (by decide) (by decide)⟩

/-- C4, corrected: `get_actual_model_name` raises no error in either case —
when no mapping exists for the scope, and when the decoded position falls
outside the stored list, it silently returns the display name itself as a
fallback. -/
theorem resolve_source_fallback (rm : RMState) (display_name : String) (thread_id : Nat)
    (post_id : Option Nat) (w : String) (hw : lastWord display_name = some w)
    (hw1 : w.length = 1) :
    (rm.lookup (scope_key thread_id post_id) = none →
      get_actual_model_name rm display_name thread_id post_id = some display_name) ∧
    (∀ models, rm.lookup (scope_key thread_id post_id) = some models →
      ¬(0 < (w.get 0).toNat - 64 ∧ (w.get 0).toNat - 64 ≤ models.length) →
      get_actual_model_name rm display_name thread_id post_id = some display_name) := by
  constructor
  · intro hnone
    simp only [get_actual_model_name, hw, hnone]
    rw [dif_pos hw1]
  · intro models hsome hout
    simp only [get_actual_model_name, hw, hsome]
    rw [dif_pos hw1, dif_neg hout]

/-- Witness for C4: an empty cache and the display name "Model A". -/
theorem resolve_source_fallback_witness :
    lastWord "Model A" = some "A" ∧ ("A" : String).length = 1 ∧
    get_actual_model_name ([] : RMState) "Model A" 1 none = some "Model A" :=
  ⟨by decide, by decide,
    (resolve_source_fallback [] "Model A" 1 none "A" (by decide) (by decide)).1 rfl⟩

/-- Counterexample to C4 as stated: resolution with no assigned mapping
returns the display name (no UnknownScopeError), and resolution of a letter
beyond the mapping's size returns the display name (no OutOfRangeError) —
in both cases a silently returned default. -/
theorem resolve_source_counterexample :
    get_actual_model_name ([] : RMState) "Model A" 1 none = some "Model A" ∧
    get_actual_model_name ([(PyKey.int 1, ["gpt-4o"])] : RMState) "Model B" 1 none =
      some "Model B" := by
  decide

/-- C7, confirmed: whenever `random.sample` returns a permutation of the
given non-empty duplicate-free list of sources (of at most 26 entries, the
alphabet the encoding addresses), the freshly assigned mapping is a
permutation of exactly those sources; each source sits at exactly one
position, position `i+1` is displayed as "Model" followed by the `i`-th
uppercase letter, and distinct sources get distinct display names. -/
theorem assigned_mapping_is_permutation (sample : List String → List String)
    (hsample : ∀ l : List String, (sample l).Perm l)
    (models : List String) (_hne : models ≠ []) (hnd : models.Nodup)
    (hlen : models.length ≤ 26) (thread_id : Nat) (post_id : Option Nat) :
    (get_randomized_models sample [] models thread_id post_id).1.Perm models ∧
    (get_randomized_models sample [] models thread_id post_id).1.Nodup ∧
    (∀ m ∈ models, ∃! i : Fin (get_randomized_models sample [] models thread_id post_id).1.length,
      (get_randomized_models sample [] models thread_id post_id).1.get i = m) ∧
    (∀ i : Fin (get_randomized_models sample [] models thread_id post_id).1.length,
      get_model_display_name (get_randomized_models sample [] models thread_id post_id).2
          ((get_randomized_models sample [] models thread_id post_id).1.get i)
          thread_id post_id false =
        some ("Model " ++ String.singleton (Char.ofNat (65 + i.val)))) ∧
    (∀ m₁ ∈ models, ∀ m₂ ∈ models, m₁ ≠ m₂ →
      get_model_display_name (get_randomized_models sample [] models thread_id post_id).2
          m₁ thread_id post_id false ≠
        get_model_display_name (get_randomized_models sample [] models thread_id post_id).2
          m₂ thread_id post_id false) := by
  have hres : get_randomized_models sample [] models thread_id post_id =
      (sample models, [(scope_key thread_id post_id, sample models)]) := by
    unfold get_randomized_models
    rfl
  rw [hres]
  set ms := sample models with hms
  have hperm : ms.Perm models := hsample models
  have hmsnd : ms.Nodup := (List.Perm.nodup_iff hperm).mpr hnd
  have hmslen : ms.length ≤ 26 := by
    rw [hperm.length_eq]
    exact hlen
  have hlook : ([(scope_key thread_id post_id, ms)] : RMState).lookup
      (scope_key thread_id post_id) = some ms := by
    simp [List.lookup]
  have hdisp : ∀ m ∈ ms,
      get_model_display_name [(scope_key thread_id post_id, ms)] m thread_id post_id false =
        some ("Model " ++ String.singleton (Char.ofNat (65 + ms.indexOf m))) := by
    intro m hm
    unfold get_model_display_name
    rw [hlook]
    simp only [hm, if_true, Bool.false_eq_true, if_false]
    have he : 64 + (ms.indexOf m + 1) = 65 + ms.indexOf m := by omega
    rw [he]
  refine ⟨hperm, hmsnd, ?_, ?_, ?_⟩
  · intro m hm
    have hmem : m ∈ ms := (hperm.mem_iff).mpr hm
    have hidx : ms.indexOf m < ms.length := List.indexOf_lt_length.mpr hmem
    refine ⟨⟨ms.indexOf m, hidx⟩, List.indexOf_get hidx, ?_⟩
    intro j hj
    have := (hmsnd.get_inj_iff (i := j) (j := ⟨ms.indexOf m, hidx⟩)).mp
      (by rw [hj, List.indexOf_get hidx])
    exact this
  · intro i
    have hmem : ms.get i ∈ ms := List.get_mem ms i.1 i.2
    rw [hdisp (ms.get i) hmem]
    have hidxi : ms.indexOf (ms.get i) = i.val := by
      have hidx : ms.indexOf (ms.get i) < ms.length := List.indexOf_lt_length.mpr hmem
      have h2 := (hmsnd.get_inj_iff (i := ⟨ms.indexOf (ms.get i), hidx⟩) (j := i)).mp
        (List.indexOf_get hidx)
      simpa using congrArg Fin.val h2
    rw [hidxi]
  · intro m₁ hm₁ m₂ hm₂ hne12
    have hmem₁ : m₁ ∈ ms := (hperm.mem_iff).mpr hm₁
    have hmem₂ : m₂ ∈ ms := (hperm.mem_iff).mpr hm₂
    rw [hdisp m₁ hmem₁, hdisp m₂ hmem₂]
    intro heq
    have hchar := display_name_letter_inj (Option.some.inj heq)
    have hidx₁ : ms.indexOf m₁ < ms.length := List.indexOf_lt_length.mpr hmem₁
    have hidx₂ : ms.indexOf m₂ < ms.length := List.indexOf_lt_length.mpr hmem₂
    have hij : ms.indexOf m₁ = ms.indexOf m₂ :=
      letter_inj (ms.indexOf m₁) (by omega) (ms.indexOf m₂) (by omega) hchar
    have : ms.get ⟨ms.indexOf m₁, hidx₁⟩ = ms.get ⟨ms.indexOf m₂, hidx₂⟩ := by
      congr 1
      exact Fin.ext hij
    rw [List.indexOf_get hidx₁, List.indexOf_get hidx₂] at this
    exact hne12 this

/-- Witness for C7: the identity permutation on the spec's four example
sources at thread scope 42. -/
theorem assigned_mapping_is_permutation_witness :
    (∀ l : List String, (id l).Perm l) ∧
    (["gpt-4o", "claude", "gemini", "deepseek"] : List String) ≠ [] ∧
    (["gpt-4o", "claude", "gemini", "deepseek"] : List String).Nodup ∧
    (get_randomized_models id [] ["gpt-4o", "claude", "gemini", "deepseek"] 42 none).1.Perm
      ["gpt-4o", "claude", "gemini", "deepseek"] :=
  ⟨fun l => List.Perm.refl l, by decide, by decide,
    (assigned_mapping_is_permutation id (fun l => List.Perm.refl l)
      ["gpt-4o", "claude", "gemini", "deepseek"] (by decide) (by decide) (by decide)
      42 none).1⟩

/-- Membership in `voted_posts` after a run of actions comes either from
the starting state or from a vote action on exactly that thread and post. -/
theorem voted_posts_run_mem (s : Session) (es : List Event) (t p : Nat)
    (h : postKey t p ∈ (run s es).voted_posts) :
    postKey t p ∈ s.voted_posts ∨ ∃ m ip, Event.vote t p m ip ∈ es := by
  induction es generalizing s with
  | nil => exact Or.inl h
  | cons e es ih =>
    rcases ih (step s e) h with h1 | h1
    · cases e with
      | vote t' p' m ip =>
        rcases List.mem_insert_iff.mp h1 with heq | hmem
        · obtain ⟨ht, hp⟩ := postKey_inj heq
          subst ht
          subst hp
          exact Or.inr ⟨m, ip, List.mem_cons_self _ _⟩
        · exact Or.inl hmem
      | removeVote t' p' m ip => exact Or.inl h1
    · obtain ⟨m, ip, hm⟩ := h1
      exact Or.inr ⟨m, ip, List.mem_cons_of_mem _ hm⟩

/-- C8, confirmed: in any session (any starting database, any sequence of
viewer actions), the per-post vote distribution for a (thread, post) is
rendered only if the viewer has cast at least one vote on that exact
(thread, post) earlier in the session. -/
theorem reveal_after_vote (db : DB) (es : List Event) (t p : Nat)
    (h : render_post_distribution (run (initSession db) es) t p ≠ none) :
    ∃ m ip, Event.vote t p m ip ∈ es := by
  have hmem : postKey t p ∈ (run (initSession db) es).voted_posts := by
    by_contra hc
    apply h
    unfold render_post_distribution
    rw [if_neg hc]
  rcases voted_posts_run_mem (initSession db) es t p hmem with h1 | h1
  · simp [initSession] at h1
  · exact h1

/-- Witness for C8: after one vote action on (1,2), the distribution for
(1,2) is rendered, and indeed a vote on (1,2) is in the trace. -/
theorem reveal_after_vote_witness :
    render_post_distribution
        (run (initSession (some [])) [Event.vote 1 2 "gpt-4o" "203.0.113.5"]) 1 2 ≠ none ∧
    ∃ m ip, Event.vote 1 2 m ip ∈ [Event.vote 1 2 "gpt-4o" "203.0.113.5"] :=
  ⟨by decide,
    reveal_after_vote (some []) [Event.vote 1 2 "gpt-4o" "203.0.113.5"] 1 2 (by decide)⟩

/-- C10, confirmed: a key present in `voted_posts` stays there for every
later action of the session; the Remove Vote handler leaves `voted_posts`
unchanged while erasing the per-source session record and running the
store deletion, so the reveal gate for the post stays open after the
viewer removes their vote. -/
theorem voted_posts_never_removed (s : Session) (es : List Event) (k : String)
    (hk : k ∈ s.voted_posts) (t p : Nat) (m ip : String) :
    k ∈ (run s es).voted_posts ∧
    (step s (Event.removeVote t p m ip)).voted_posts = s.voted_posts ∧
    (step s (Event.removeVote t p m ip)).user_votes = s.user_votes.erase (voteKey t p m) ∧
    (step s (Event.removeVote t p m ip)).db = remove_vote s.db t p ip ∧
    (revealModelNames s t p = true →
      revealModelNames (step s (Event.removeVote t p m ip)) t p = true) := by
  refine ⟨?_, rfl, rfl, rfl, fun hr => hr⟩
  induction es generalizing s with
  | nil => exact hk
  | cons e es ih =>
    apply ih
    cases e with
    | vote t' p' m' ip' => exact List.mem_insert_of_mem hk
    | removeVote t' p' m' ip' => exact hk

/-- Witness for C10: with (1,2) already voted in the session, a trace of
one remove action still has it in `voted_posts`. -/
theorem voted_posts_never_removed_witness :
    postKey 1 2 ∈ [postKey 1 2] ∧
    postKey 1 2 ∈
      (run (Session.mk [postKey 1 2] [voteKey 1 2 "gpt-4o"]
          (some [VoteRecord.mk 1 2 "gpt-4o" "203.0.113.5" 0]) 1)
        [Event.removeVote 1 2 "gpt-4o" "203.0.113.5"]).voted_posts :=
  ⟨List.mem_cons_self _ _,
    (voted_posts_never_removed
      (Session.mk [postKey 1 2] [voteKey 1 2 "gpt-4o"]
        (some [VoteRecord.mk 1 2 "gpt-4o" "203.0.113.5" 0]) 1)
      [Event.removeVote 1 2 "gpt-4o" "203.0.113.5"] (postKey 1 2)
      (List.mem_cons_self _ _) 1 2 "gpt-4o" "203.0.113.5").1⟩

/-- C9, confirmed: on the statistics page a zero total renders the no-data
message and every chart entry's percentage is `count / total * 100` with a
positive total; likewise the per-post distribution renders nothing when
the scoped total is zero and computes every percentage only under a
positive total — no division by zero is reachable. -/
theorem percentages_guarded (db : DB) (s : Session) (t p : Nat) :
    (((get_all_vote_stats db).map (fun e => e.2)).sum = 0 →
      (show_statistics db).2 = StatsView.noData) ∧
    (∀ entries, (show_statistics db).2 = StatsView.chart entries →
      0 < ((get_all_vote_stats db).map (fun e => e.2)).sum ∧
      ∀ e ∈ entries,
        e.2.2 = (e.2.1 : ℚ) / ((((get_all_vote_stats db).map (fun e => e.2)).sum : Nat) : ℚ) *
          100) ∧
    ((get_vote_stats s.db t p).2 = 0 → render_post_distribution s t p = none) ∧
    (∀ entries, render_post_distribution s t p = some entries →
      0 < (get_vote_stats s.db t p).2 ∧
      ∀ e ∈ entries, e.2.2 = (e.2.1 : ℚ) / (((get_vote_stats s.db t p).2 : Nat) : ℚ) * 100) := by
  refine ⟨?_, ?_, ?_, ?_⟩
  · intro h
    simp [show_statistics, h]
  · intro entries he
    by_cases h0 : 0 < ((get_all_vote_stats db).map (fun e => e.2)).sum
    · refine ⟨h0, ?_⟩
      simp only [show_statistics, if_pos h0, StatsView.chart.injEq] at he
      subst he
      intro e hemem
      obtain ⟨a, _, hae⟩ := List.mem_map.mp hemem
      rw [← hae]
    · simp [show_statistics, h0] at he
  · intro h
    unfold render_post_distribution
    by_cases hm : postKey t p ∈ s.voted_posts
    · rw [if_pos hm]
      simp [h]
    · rw [if_neg hm]
  · intro entries he
    unfold render_post_distribution at he
    by_cases hm : postKey t p ∈ s.voted_posts
    · rw [if_pos hm] at he
      by_cases h0 : 0 < (get_vote_stats s.db t p).2
      · refine ⟨h0, ?_⟩
        simp only [if_pos h0, Option.some.injEq] at he
        subst he
        intro e hemem
        obtain ⟨a, _, hae⟩ := List.mem_map.mp hemem
        rw [← hae]
      · simp [h0] at he
    · rw [if_neg hm] at he
      exact absurd he (by simp)

/-- Witness for C9: a store with a single vote renders the chart, and the
theorem yields a positive total for it. -/
theorem percentages_guarded_witness :
    (show_statistics (some [VoteRecord.mk 1 2 "gpt-4o" "203.0.113.5" 0])).2 =
      StatsView.chart
        ((get_all_vote_stats (some [VoteRecord.mk 1 2 "gpt-4o" "203.0.113.5" 0])).map
          (fun e => (e.1, e.2, (e.2 : ℚ) /
            ((((get_all_vote_stats (some [VoteRecord.mk 1 2 "gpt-4o" "203.0.113.5" 0])).map
              (fun e => e.2)).sum : Nat) : ℚ) * 100))) ∧
    0 < ((get_all_vote_stats (some [VoteRecord.mk 1 2 "gpt-4o" "203.0.113.5" 0])).map
      (fun e => e.2)).sum := by
  have hpos : 0 < ((get_all_vote_stats (some [VoteRecord.mk 1 2 "gpt-4o" "203.0.113.5" 0])).map
      (fun e => e.2)).sum := by decide
  have hchart : (show_statistics (some [VoteRecord.mk 1 2 "gpt-4o" "203.0.113.5" 0])).2 =
      StatsView.chart
        ((get_all_vote_stats (some [VoteRecord.mk 1 2 "gpt-4o" "203.0.113.5" 0])).map
          (fun e => (e.1, e.2, (e.2 : ℚ) /
            ((((get_all_vote_stats (some [VoteRecord.mk 1 2 "gpt-4o" "203.0.113.5" 0])).map
              (fun e => e.2)).sum : Nat) : ℚ) * 100))) := by
    simp only [show_statistics]
    rw [if_pos hpos]
  exact ⟨hchart,
    ((percentages_guarded (some [VoteRecord.mk 1 2 "gpt-4o" "203.0.113.5" 0])
      (initSession none) 1 2).2.1 _ hchart).1⟩

end App
